import Mathlib

/-!
Verification of the coppwr session-bridge and object-graph mirror.

The Rust sources under src/ are shallowly embedded below:
- BTreeMap and HashMap values become association lists with unique keys
  (alistGet, alistInsert, alistRemove model get, insert and remove);
- machine integers (u32) become Nat, with explicit bounds where overflow
  or parsing matters;
- fallible parsing (str::parse) returns Option.
-/

/-- Object types, the fixed variant set used by the mirror
(see pipewire ObjectType as consumed by src/ui/global.rs). -/
inductive ObjectType where
  | client
  | device
  | node
  | port
  | link
  | factory
  | moduleType
  | metadata
  | core
  | profiler
  | other (s : String)
deriving DecidableEq, Repr

/-- Association-list lookup: the model of BTreeMap::get and HashMap::get. -/
def alistGet {κ α : Type} [DecidableEq κ] (l : List (κ × α)) (k : κ) : Option α :=
  match l with
  | [] => none
  | (k₀, v₀) :: rest => if k₀ = k then some v₀ else alistGet rest k

/-- Association-list insert-or-replace: the model of BTreeMap::insert and of the
occupied/vacant entry API (replace the record when the key exists, insert otherwise). -/
def alistInsert {κ α : Type} [DecidableEq κ] (k : κ) (v : α) (l : List (κ × α)) :
    List (κ × α) :=
  match l with
  | [] => [(k, v)]
  | (k₀, v₀) :: rest =>
    if k = k₀ then (k, v) :: rest else (k₀, v₀) :: alistInsert k v rest

/-- Association-list removal of a key: the model of BTreeMap::remove and HashMap::remove. -/
def alistRemove {κ α : Type} [DecidableEq κ] (k : κ) (l : List (κ × α)) :
    List (κ × α) :=
  match l with
  | [] => []
  | (k₀, v₀) :: rest => if k₀ = k then rest else (k₀, v₀) :: alistRemove k rest

/-- Key uniqueness, the invariant every BTreeMap and HashMap maintains. -/
def alistKeysUnique {κ α : Type} (l : List (κ × α)) : Prop :=
  l.Pairwise (fun a b => a.1 ≠ b.1)

/-- Rust str::parse::<u32>().ok(): an optional leading plus sign, then at least one
ascii digit, value below 2^32; anything else parses to none. -/
def parseU32 (s : String) : Option Nat :=
  let cs := s.data
  let ds := match cs with
    | '+' :: rest => rest
    | _ => cs
  if ds.isEmpty then none
  else if ds.all (fun c => c.isDigit) then
    let n := ds.foldl (fun acc c => acc * 10 + (c.toNat - 48)) 0
    if n < 4294967296 then some n else none
  else none

/-- Parent derivation from Global::update (src/ui/global.rs lines 223-231):
Node reads device.id, falling back to client.id; Port reads node.id; every other
type has no parent; the selected value is then parsed as a u32. -/
def deriveParent (t : ObjectType) (props : List (String × String)) : Option Nat :=
  (match t with
   | ObjectType.node =>
     (alistGet props "device.id").orElse (fun _ => alistGet props "client.id")
   | ObjectType.port => alistGet props "node.id"
   | _ => none).bind (fun s => parseU32 s)

/-- Parent derivation as the specification words it: Node takes device.id else
client.id; Port takes node.id; all other types none; non-numeric or missing
values leave the parent unset. -/
def specParentDerivation (t : ObjectType) (props : List (String × String)) : Option Nat :=
  match t with
  | ObjectType.node =>
    match alistGet props "device.id" with
    | some v => parseU32 v
    | none =>
      match alistGet props "client.id" with
      | some v => parseU32 v
      | none => none
  | ObjectType.port =>
    match alistGet props "node.id" with
    | some v => parseU32 v
    | none => none
  | _ => none

/-- find_map over a list of candidate keys, as used for the Device and Node
name lookups in Global::update. -/
def lookupFirst (props : List (String × String)) : List String → Option String
  | [] => none
  | k :: ks =>
    match alistGet props k with
    | some v => some v
    | none => lookupFirst props ks

/-- The fallback scan of Global::update (src/ui/global.rs lines 253-265): iterate
props in key order, keeping keys that end in .name and are not library.name, and
skipping factory.name when the type is not Factory; the first surviving value wins. -/
def fallbackName (t : ObjectType) : List (String × String) → Option String
  | [] => none
  | (k, v) :: rest =>
    if k.endsWith ".name" && k != "library.name" then
      if decide (t ≠ ObjectType.factory) && k == "factory.name" then fallbackName t rest
      else some v
    else fallbackName t rest

/-- Name derivation from Global::update (src/ui/global.rs lines 233-267). -/
def deriveName (t : ObjectType) (props : List (String × String)) : Option String :=
  let name : Option String :=
    match t with
    | ObjectType.device => lookupFirst props ["device.nick", "device.description", "device.name"]
    | ObjectType.node => lookupFirst props ["node.nick", "node.description", "node.name"]
    | ObjectType.port => alistGet props "port.name"
    | ObjectType.core => alistGet props "core.name"
    | _ => none
  match name with
  | some v => some v
  | none => fallbackName t props

/-- Name derivation as the specification words it: type-specific candidate keys,
first present wins; if none matched, scan props in key order for a key ending in
.name, excluding library.name, and excluding factory.name unless the object is a
Factory; otherwise no name. -/
def specNameDerivation (t : ObjectType) (props : List (String × String)) : Option String :=
  let typeCandidates : List String :=
    match t with
    | ObjectType.device => ["device.nick", "device.description", "device.name"]
    | ObjectType.node => ["node.nick", "node.description", "node.name"]
    | ObjectType.port => ["port.name"]
    | ObjectType.core => ["core.name"]
    | _ => []
  match typeCandidates.findSome? (fun k => alistGet props k) with
  | some v => some v
  | none =>
    (props.filter (fun p =>
        p.1.endsWith ".name" && p.1 != "library.name" &&
        (decide (t = ObjectType.factory) || p.1 != "factory.name"))).head?.map Prod.snd

/-- Permission entry for one object id (pipewire permissions::Permissions):
the flag set is modelled as a Nat bit mask. -/
structure Permissions where
  id : Nat
  permissions : Nat
deriving DecidableEq, Repr

/-- Object methods carried by Request.CallObjectMethod (src/backend/mod.rs lines 29-43). -/
inductive ObjectMethod where
  | ClientGetPermissions (index : Nat) (num : Nat)
  | ClientUpdatePermissions (list : List Permissions)
  | ClientUpdateProperties (props : List (String × String))
  | MetadataSetProperty (subject : Nat) (key : String)
      (type_ : Option String) (value : Option String)
  | MetadataClear
deriving DecidableEq, Repr

/-- Requests from the UI thread to the bridge thread (src/backend/mod.rs lines 45-58). -/
inductive Request where
  | Stop
  | CreateObject (t : ObjectType) (factory : String) (props : List (String × String))
  | DestroyObject (id : Nat)
  | LoadModule (module_dir : Option String) (name : String)
      (args : Option String) (props : Option (List (String × String)))
  | GetContextProperties
  | UpdateContextProperties (props : List (String × String))
  | CallObjectMethod (id : Nat) (m : ObjectMethod)
deriving DecidableEq, Repr

/-- Object type specific data (src/ui/global.rs lines 73-80): Client carries the
known permission list, the user-staged permission additions and the user-staged
property edits; every other type carries only its tag. -/
inductive ObjectData where
  | clientData (permissions : Option (List Permissions))
      (user_permissions : List Permissions)
      (user_properties : List (String × String))
  | otherData (t : ObjectType)
deriving DecidableEq, Repr

/-- From ObjectType for ObjectData (src/ui/global.rs lines 82-93). -/
def ObjectData.fromType : ObjectType → ObjectData
  | ObjectType.client => ObjectData.clientData none [] []
  | t => ObjectData.otherData t

/-- ObjectData::pipewire_type (src/ui/global.rs lines 96-101). -/
def ObjectData.pipewire_type : ObjectData → ObjectType
  | ObjectData.clientData _ _ _ => ObjectType.client
  | ObjectData.otherData t => t

/-- A mirrored PipeWire object (src/ui/global.rs lines 186-197). The subobjects
field (a Vec of Weak references) is omitted: no claim below depends on it and weak
pointers have no shallow embedding. -/
structure Global where
  id : Nat
  name : Option String
  parent : Option Nat
  info : Option (List (String × String))
  props : List (String × String)
  object_data : ObjectData
deriving DecidableEq, Repr

/-- Global::object_type (src/ui/global.rs lines 462-464). -/
def Global.object_type (g : Global) : ObjectType :=
  g.object_data.pipewire_type

/-- Global::update (src/ui/global.rs lines 222-268): recompute parent and name
from the current props. -/
def Global.update (g : Global) : Global :=
  { g with
      parent := deriveParent g.object_type g.props,
      name := deriveName g.object_type g.props }

/-- Global::new (src/ui/global.rs lines 200-220). -/
def Global.new (id : Nat) (object_type : ObjectType)
    (props : Option (List (String × String))) : Global :=
  let this : Global :=
    { id := id
      name := none
      parent := none
      info := none
      props := props.getD []
      object_data := ObjectData.fromType object_type }
  if this.props.isEmpty then this else this.update

/-- Global::set_props (src/ui/global.rs lines 474-477): replace props wholesale,
then recompute the derived fields. -/
def Global.set_props (g : Global) (props : List (String × String)) : Global :=
  Global.update { g with props := props }

/-- Global::parent_id (src/ui/global.rs lines 491-493). -/
def Global.parent_id (g : Global) : Option Nat :=
  g.parent

/-- The value u32::MAX. -/
def u32Max : Nat := 4294967295

/-- The Update permissions click handler of ObjectData::show (src/ui/global.rs
lines 153-177), reachable only when the known permission list is present: it
concatenates the known list with the staged additions (draining the latter),
sends ClientUpdatePermissions with the concatenation, then immediately sends
ClientGetPermissions over the full range. Returns the new object data and the
requests sent, in order. -/
def ObjectData.updatePermissionsClick (od : ObjectData) (id : Nat) :
    Option (ObjectData × List Request) :=
  match od with
  | ObjectData.clientData (some permissions) user_permissions user_properties =>
    let all_permissions := (([] : List Permissions) ++ permissions) ++ user_permissions
    some (ObjectData.clientData (some permissions) [] user_properties,
      [Request.CallObjectMethod id (ObjectMethod.ClientUpdatePermissions all_permissions),
       Request.CallObjectMethod id (ObjectMethod.ClientGetPermissions 0 u32Max)])
  | _ => none

/-- One metadata record (src/ui/metadata_editor.rs lines 24-28). -/
structure Property where
  subject : Nat
  type_ : Option String
  value : String
deriving DecidableEq, Repr

/-- One tracked metadata global (src/ui/metadata_editor.rs lines 50-54). -/
structure Metadata where
  name : String
  properties : List (String × Property)
  user_properties : List (String × Property)
deriving DecidableEq, Repr

/-- The metadata mirror (src/ui/metadata_editor.rs lines 56-58). -/
structure MetadataEditor where
  metadatas : List (Nat × Metadata)
deriving DecidableEq, Repr

/-- MetadataEditor::new (src/ui/metadata_editor.rs lines 67-71). -/
def MetadataEditor.new : MetadataEditor :=
  { metadatas := [] }

/-- MetadataEditor::add_metadata (src/ui/metadata_editor.rs lines 73-79):
entry(id).or_insert an empty metadata with the given name. -/
def MetadataEditor.add_metadata (e : MetadataEditor) (id : Nat) (name : String) :
    MetadataEditor :=
  match alistGet e.metadatas id with
  | some _ => e
  | none =>
    { metadatas :=
        alistInsert id
          { name := name, properties := [], user_properties := [] } e.metadatas }

/-- MetadataEditor::add_property (src/ui/metadata_editor.rs lines 81-116): when the
metadata id is tracked, upsert the record under the key (replace if occupied,
insert if vacant); when it is not tracked, create the metadata entry with the
supplied name and exactly the one record. -/
def MetadataEditor.add_property (e : MetadataEditor) (id : Nat) (name : String)
    (subject : Nat) (key : String) (type_ : Option String) (value : String) :
    MetadataEditor :=
  let prop : Property := { subject := subject, type_ := type_, value := value }
  match alistGet e.metadatas id with
  | some m =>
    { metadatas :=
        alistInsert id { m with properties := alistInsert key prop m.properties }
          e.metadatas }
  | none =>
    { metadatas :=
        alistInsert id
          { name := name, properties := alistInsert key prop [], user_properties := [] }
          e.metadatas }

/-- MetadataEditor::remove_metadata (src/ui/metadata_editor.rs lines 118-120). -/
def MetadataEditor.remove_metadata (e : MetadataEditor) (id : Nat) : MetadataEditor :=
  { metadatas := alistRemove id e.metadatas }

/-- MetadataEditor::remove_property (src/ui/metadata_editor.rs lines 122-126):
entry(id).and_modify, removing the key from the properties of that id. -/
def MetadataEditor.remove_property (e : MetadataEditor) (id : Nat) (key : String) :
    MetadataEditor :=
  match alistGet e.metadatas id with
  | some m =>
    { metadatas :=
        alistInsert id { m with properties := alistRemove key m.properties }
          e.metadatas }
  | none => e

/-- MetadataEditor::clear_properties (src/ui/metadata_editor.rs lines 128-132):
entry(id).and_modify, clearing the properties of that id. -/
def MetadataEditor.clear_properties (e : MetadataEditor) (id : Nat) : MetadataEditor :=
  match alistGet e.metadatas id with
  | some m =>
    { metadatas := alistInsert id { m with properties := [] } e.metadatas }
  | none => e

/-- The records currently held for one metadata id (empty when untracked). -/
def MetadataEditor.propsOf (e : MetadataEditor) (id : Nat) : List (String × Property) :=
  match alistGet e.metadatas id with
  | some m => m.properties
  | none => []

/-- Well-formedness of the metadata mirror: the id map and every per-id record
map have unique keys, as BTreeMap guarantees. -/
def MetadataEditor.WF (e : MetadataEditor) : Prop :=
  alistKeysUnique e.metadatas ∧ ∀ p ∈ e.metadatas, alistKeysUnique p.2.properties

/-- One tracked factory (src/ui/object_creator.rs lines 31-35). -/
structure Factory where
  name : String
  object_type : ObjectType
  global : Global
deriving DecidableEq, Repr

/-- The object-creation helper (src/ui/object_creator.rs lines 37-43). The
factories HashMap is modelled as a unique-key association list. -/
structure ObjectCreator where
  factories : List (Nat × Factory)
  selected_factory : Option Nat
  props : List (String × String)
deriving DecidableEq, Repr

/-- ObjectCreator::default. -/
def ObjectCreator.default : ObjectCreator :=
  { factories := [], selected_factory := none, props := [] }

/-- ObjectCreator::add_factory (src/ui/object_creator.rs lines 54-69). -/
def ObjectCreator.add_factory (c : ObjectCreator) (id : Nat) (name : String)
    (object_type : ObjectType) (global : Global) : ObjectCreator :=
  { c with
      factories :=
        alistInsert id
          { name := name, object_type := object_type, global := global } c.factories }

/-- ObjectCreator::remove_factory (src/ui/object_creator.rs lines 71-73). -/
def ObjectCreator.remove_factory (c : ObjectCreator) (id : Nat) : ObjectCreator :=
  { c with factories := alistRemove id c.factories }

/-- The selection logic at the top of ObjectCreator::show (src/ui/object_creator.rs
lines 75-84): resolve the selected factory id against the tracked set, resetting
the selection to none when the id is not (or no longer) tracked. Returns the
updated state and the resolved factory. -/
def ObjectCreator.resolveSelection (c : ObjectCreator) : ObjectCreator × Option Factory :=
  match c.selected_factory with
  | some id =>
    match alistGet c.factories id with
    | some f => (c, some f)
    | none => ({ c with selected_factory := none }, none)
  | none => (c, none)

/-- Enablement of the Create button (src/ui/object_creator.rs line 118):
add_enabled_ui(factory.is_some(), ..). -/
def createEnabled (factory : Option Factory) : Bool :=
  factory.isSome

/-- Remote endpoint choice (src/backend/mod.rs lines 89-99); the feature-gated
Screencast source-type bit flags are modelled as a Nat bit mask. -/
inductive RemoteInfo where
  | Regular (name : String)
  | Screencast (types : Nat) (multiple : Bool)
  | Camera
deriving DecidableEq, Repr

/-- The discriminant of a RemoteInfo value (std::mem::discriminant). -/
def RemoteInfo.discriminant : RemoteInfo → Nat
  | RemoteInfo.Regular _ => 0
  | RemoteInfo.Screencast _ _ => 1
  | RemoteInfo.Camera => 2

/-- RemoteInfo PartialEq::eq (src/backend/mod.rs lines 101-105): comparison of
discriminants only, ignoring the payloads. -/
def RemoteInfo.eq (a b : RemoteInfo) : Bool :=
  RemoteInfo.discriminant a == RemoteInfo.discriminant b

/-- Two RemoteInfo values built from the same variant, stated structurally. -/
def RemoteInfo.sameVariant : RemoteInfo → RemoteInfo → Prop
  | RemoteInfo.Regular _, RemoteInfo.Regular _ => True
  | RemoteInfo.Screencast _ _, RemoteInfo.Screencast _ _ => True
  | RemoteInfo.Camera, RemoteInfo.Camera => True
  | _, _ => False

/-- Observable steps of Handle::drop, in order. -/
inductive TeardownStep where
  | sendRequest (r : Request)
  | logError (msg : String)
  | joinThread
deriving DecidableEq, Repr

/-- Result of joining the bridge thread: normal exit, or a caught panic. -/
inductive JoinOutcome where
  | finished
  | panicked (msg : String)
deriving DecidableEq, Repr

/-- Handle::drop (src/backend/mod.rs lines 146-155): send Stop once (logging a
line if the channel rejects it), then join the bridge thread, logging a line if
the join reports a panic; the panic is never rethrown, so the trace is a plain
list of steps for every outcome. -/
def handleDropSteps (sendFails : Bool) (outcome : JoinOutcome) : List TeardownStep :=
  [TeardownStep.sendRequest Request.Stop] ++
  (if sendFails then [TeardownStep.logError "Error sending stop request to PipeWire"] else []) ++
  [TeardownStep.joinThread] ++
  (match outcome with
   | JoinOutcome.finished => []
   | JoinOutcome.panicked m =>
     [TeardownStep.logError ("The PipeWire thread has paniced: " ++ m)])

/-- True of the step that sends the Stop request. -/
def TeardownStep.isSendStop : TeardownStep → Bool
  | TeardownStep.sendRequest Request.Stop => true
  | _ => false

/-- True of any request-send step. -/
def TeardownStep.isSend : TeardownStep → Bool
  | TeardownStep.sendRequest _ => true
  | _ => false

/-- True of the join step. -/
def TeardownStep.isJoin : TeardownStep → Bool
  | TeardownStep.joinThread => true
  | _ => false

/-- Modelled from the spec: the session-bridge event loop lives in
src/backend/pipewire.rs, which is not among the provided sources. Sections 4.2
and 5 of the specification state that the loop services pending requests in
order and terminates when it observes Request::Stop. The loop is modelled as a
scan of the pending request stream that reports whether the loop exits. -/
def bridgeLoopExits : List Request → Bool
  | [] => false
  | Request.Stop :: _ => true
  | _ :: rest => bridgeLoopExits rest

section AlistLemmas

variable {κ α : Type} [DecidableEq κ]

theorem alistGet_insert_self (k : κ) (v : α) (l : List (κ × α)) :
    alistGet (alistInsert k v l) k = some v := by
  induction l with
  | nil => simp [alistInsert, alistGet]
  | cons p rest ih =>
    obtain ⟨k₀, v₀⟩ := p
    by_cases h : k = k₀
    · simp [alistInsert, alistGet, h]
    · simp [alistInsert, alistGet, h, Ne.symm h, ih]

theorem alistGet_insert_ne {k k₁ : κ} {v : α} {l : List (κ × α)} (h : k₁ ≠ k) :
    alistGet (alistInsert k v l) k₁ = alistGet l k₁ := by
  induction l with
  | nil => simp [alistInsert, alistGet, Ne.symm h]
  | cons p rest ih =>
    obtain ⟨k₀, v₀⟩ := p
    by_cases h₀ : k = k₀
    · subst h₀
      simp [alistInsert, alistGet, Ne.symm h]
    · simp [alistInsert, alistGet, h₀, ih]

theorem alistGet_remove_ne {k k₁ : κ} {l : List (κ × α)} (h : k₁ ≠ k) :
    alistGet (alistRemove k l) k₁ = alistGet l k₁ := by
  induction l with
  | nil => simp [alistRemove]
  | cons p rest ih =>
    obtain ⟨k₀, v₀⟩ := p
    by_cases h₀ : k₀ = k
    · subst h₀
      simp [alistRemove, alistGet, Ne.symm h]
    · simp [alistRemove, alistGet, h₀, ih]

theorem alistGet_eq_none_of_not_mem (k : κ) (l : List (κ × α))
    (h : ∀ p ∈ l, p.1 ≠ k) : alistGet l k = none := by
  induction l with
  | nil => rfl
  | cons p rest ih =>
    obtain ⟨k₀, v₀⟩ := p
    have hk : k₀ ≠ k := h (k₀, v₀) (List.mem_cons_self _ _)
    simp only [alistGet, if_neg hk]
    exact ih (fun q hq => h q (List.mem_cons_of_mem _ hq))

theorem alistGet_remove_self {k : κ} {l : List (κ × α)} (h : alistKeysUnique l) :
    alistGet (alistRemove k l) k = none := by
  induction l with
  | nil => rfl
  | cons p rest ih =>
    obtain ⟨k₀, v₀⟩ := p
    rw [alistKeysUnique, List.pairwise_cons] at h
    by_cases h₀ : k₀ = k
    · subst h₀
      simp only [alistRemove, if_pos rfl]
      exact alistGet_eq_none_of_not_mem _ _ (fun q hq => Ne.symm (h.1 q hq))
    · simp only [alistRemove, if_neg h₀, alistGet, if_neg h₀]
      exact ih h.2

theorem mem_alistInsert (k : κ) (v : α) (l : List (κ × α)) (p : κ × α)
    (h : p ∈ alistInsert k v l) : p = (k, v) ∨ p ∈ l := by
  induction l with
  | nil =>
    simp [alistInsert] at h
    exact Or.inl h
  | cons q rest ih =>
    obtain ⟨k₀, v₀⟩ := q
    by_cases h₀ : k = k₀
    · simp only [alistInsert, if_pos h₀, List.mem_cons] at h
      rcases h with h | h
      · exact Or.inl h
      · exact Or.inr (List.mem_cons_of_mem _ h)
    · simp only [alistInsert, if_neg h₀, List.mem_cons] at h
      rcases h with h | h
      · exact Or.inr (by simp [h])
      · rcases ih h with h | h
        · exact Or.inl h
        · exact Or.inr (List.mem_cons_of_mem _ h)

theorem alistKeysUnique_insert (k : κ) (v : α) (l : List (κ × α))
    (h : alistKeysUnique l) : alistKeysUnique (alistInsert k v l) := by
  induction l with
  | nil => simp [alistInsert, alistKeysUnique]
  | cons p rest ih =>
    obtain ⟨k₀, v₀⟩ := p
    rw [alistKeysUnique, List.pairwise_cons] at h
    by_cases h₀ : k = k₀
    · subst h₀
      rw [alistKeysUnique, alistInsert, if_pos rfl, List.pairwise_cons]
      exact ⟨h.1, h.2⟩
    · rw [alistKeysUnique, alistInsert, if_neg h₀, List.pairwise_cons]
      refine ⟨fun q hq => ?_, ih h.2⟩
      rcases mem_alistInsert k v rest q hq with hq | hq
      · simpa [hq] using Ne.symm h₀
      · exact h.1 q hq

theorem alistKeysUnique_remove (k : κ) (l : List (κ × α))
    (h : alistKeysUnique l) : alistKeysUnique (alistRemove k l) := by
  induction l with
  | nil => exact h
  | cons p rest ih =>
    obtain ⟨k₀, v₀⟩ := p
    rw [alistKeysUnique, List.pairwise_cons] at h
    by_cases h₀ : k₀ = k
    · simpa only [alistRemove, if_pos h₀] using h.2
    · rw [alistRemove, if_neg h₀, alistKeysUnique, List.pairwise_cons]
      refine ⟨fun q hq => ?_, ih h.2⟩
      have : q ∈ rest := by
        clear ih h
        induction rest with
        | nil => exact absurd hq (by simp [alistRemove])
        | cons r rr ihr =>
          obtain ⟨k₁, v₁⟩ := r
          by_cases h₁ : k₁ = k
          · rw [alistRemove, if_pos h₁] at hq
            exact List.mem_cons_of_mem _ hq
          · rw [alistRemove, if_neg h₁, List.mem_cons] at hq
            rcases hq with hq | hq
            · simp [hq]
            · exact List.mem_cons_of_mem _ (ihr hq)
      exact h.1 q this

theorem filter_key_eq_nil_of_not_mem (k : κ) (l : List (κ × α))
    (h : ∀ p ∈ l, p.1 ≠ k) :
    l.filter (fun p => decide (p.1 = k)) = [] := by
  induction l with
  | nil => rfl
  | cons p rest ih =>
    obtain ⟨k₀, v₀⟩ := p
    have hk : k₀ ≠ k := h (k₀, v₀) (List.mem_cons_self _ _)
    simp only [List.filter_cons, decide_eq_true_eq]
    rw [if_neg (by simpa using hk)]
    exact ih (fun q hq => h q (List.mem_cons_of_mem _ hq))

theorem filter_alistInsert_self {k : κ} {v : α} {l : List (κ × α)}
    (h : alistKeysUnique l) :
    (alistInsert k v l).filter (fun p => decide (p.1 = k)) = [(k, v)] := by
  induction l with
  | nil => simp [alistInsert]
  | cons p rest ih =>
    obtain ⟨k₀, v₀⟩ := p
    rw [alistKeysUnique, List.pairwise_cons] at h
    by_cases h₀ : k = k₀
    · subst h₀
      rw [alistInsert, if_pos rfl, List.filter_cons]
      rw [if_pos (by simp)]
      rw [filter_key_eq_nil_of_not_mem _ _ (fun q hq => Ne.symm (h.1 q hq))]
    · rw [alistInsert, if_neg h₀, List.filter_cons]
      rw [if_neg (by simpa using Ne.symm h₀)]
      exact ih h.2

theorem alistGet_mem (k : κ) (v : α) (l : List (κ × α))
    (h : alistGet l k = some v) : (k, v) ∈ l := by
  induction l with
  | nil => exact absurd h (by simp [alistGet])
  | cons p rest ih =>
    obtain ⟨k₀, v₀⟩ := p
    by_cases h₀ : k₀ = k
    · rw [alistGet, if_pos h₀] at h
      subst h₀
      simp only [Option.some.injEq] at h
      simp [h]
    · rw [alistGet, if_neg h₀] at h
      exact List.mem_cons_of_mem _ (ih h)

end AlistLemmas

theorem lookupFirst_eq_findSome (props : List (String × String)) (ks : List String) :
    lookupFirst props ks = ks.findSome? (fun k => alistGet props k) := by
  induction ks with
  | nil => rfl
  | cons k ks ih =>
    rw [lookupFirst, List.findSome?_cons]
    cases alistGet props k with
    | none => exact ih
    | some v => rfl

theorem fallbackName_eq_filter_head (t : ObjectType) (l : List (String × String)) :
    fallbackName t l =
      (l.filter (fun p =>
          p.1.endsWith ".name" && p.1 != "library.name" &&
          (decide (t = ObjectType.factory) || p.1 != "factory.name"))).head?.map Prod.snd := by
  induction l with
  | nil => rfl
  | cons p rest ih =>
    obtain ⟨k, v⟩ := p
    by_cases hends : k.endsWith ".name" = true
    · by_cases hlib : k = "library.name"
      · subst hlib
        simp [fallbackName, List.filter_cons, hends, ih]
      · by_cases hfacK : k = "factory.name"
        · subst hfacK
          by_cases hfacT : t = ObjectType.factory
          · subst hfacT
            simp [fallbackName, List.filter_cons, hends, hlib]
          · simp [fallbackName, List.filter_cons, hends, hlib, hfacT, ih]
        · simp [fallbackName, List.filter_cons, hends, hlib, hfacK]
    · simp [fallbackName, List.filter_cons, hends, ih]

theorem deriveName_eq_spec (t : ObjectType) (props : List (String × String)) :
    deriveName t props = specNameDerivation t props := by
  have hfb := fallbackName_eq_filter_head t props
  cases t with
  | port =>
    cases h : alistGet props "port.name" <;>
      simp [deriveName, specNameDerivation, List.findSome?_cons, h, hfb]
  | core =>
    cases h : alistGet props "core.name" <;>
      simp [deriveName, specNameDerivation, List.findSome?_cons, h, hfb]
  | _ =>
    simp [deriveName, specNameDerivation, lookupFirst_eq_findSome, hfb]

theorem deriveParent_eq_spec (t : ObjectType) (props : List (String × String)) :
    deriveParent t props = specParentDerivation t props := by
  cases t with
  | node =>
    cases h1 : alistGet props "device.id" <;>
      cases h2 : alistGet props "client.id" <;>
        simp [deriveParent, specParentDerivation, h1, h2, Option.orElse]
  | port =>
    cases h : alistGet props "node.id" <;>
      simp [deriveParent, specParentDerivation, h]
  | _ => simp [deriveParent, specParentDerivation]

/-- C1: Name derivation, applied whenever the props of a Global change. For every
type and props map: Device and Node take the first present key among nick,
description and name (type-prefixed); Port takes port.name; Core takes core.name;
if no type-specific key matched, the first key in props key order ending in .name
wins, excluding library.name, and excluding factory.name unless the type is
Factory; otherwise there is no name. In particular a Node with props
node.name=foo derives name foo, and a Node with props node.nick=a, node.name=b
derives name a. -/
theorem name_derivation_correct :
    (∀ (t : ObjectType) (props : List (String × String)),
        deriveName t props = specNameDerivation t props)
    ∧ deriveName ObjectType.node [("node.name", "foo")] = some "foo"
    ∧ deriveName ObjectType.node [("node.name", "b"), ("node.nick", "a")] = some "a"
    ∧ (Global.new 1 ObjectType.node (some [("node.name", "foo")])).name = some "foo"
    ∧ (Global.new 1 ObjectType.node
        (some [("node.name", "b"), ("node.nick", "a")])).name = some "a" :=
  ⟨deriveName_eq_spec, by decide, by decide, by decide, by decide⟩

/-- C2: Parent derivation: Node parses device.id, else client.id; Port parses
node.id; every other type has no parent; and a missing or non-numeric selected
value leaves the parent unset. In particular a Port with node.id=5 has
parent_id some 5 and a Port with node.id=x has parent_id none. -/
theorem parent_derivation_correct :
    (∀ (t : ObjectType) (props : List (String × String)),
        deriveParent t props = specParentDerivation t props)
    ∧ (∀ (t : ObjectType) (props : List (String × String)),
        t ≠ ObjectType.node → t ≠ ObjectType.port → deriveParent t props = none)
    ∧ (∀ (props : List (String × String)) (v : String),
        alistGet props "node.id" = some v → parseU32 v = none →
          deriveParent ObjectType.port props = none)
    ∧ (∀ (props : List (String × String)),
        alistGet props "node.id" = none → deriveParent ObjectType.port props = none)
    ∧ (Global.new 1 ObjectType.port (some [("node.id", "5")])).parent_id = some 5
    ∧ (Global.new 1 ObjectType.port (some [("node.id", "x")])).parent_id = none := by
  refine ⟨deriveParent_eq_spec, ?_, ?_, ?_, by decide, by decide⟩
  · intro t props hn hp
    cases t <;> simp_all [deriveParent]
  · intro props v h1 h2
    simp [deriveParent, h1, h2]
  · intro props h
    simp [deriveParent, h]

/-- Witness for C2 at concrete inputs: a Link never has a parent, a Port with a
non-numeric node.id has none, and a Port with no node.id key has none. -/
theorem parent_derivation_correct_witness :
    deriveParent ObjectType.link [("node.id", "5")] = none
    ∧ deriveParent ObjectType.port [("node.id", "x")] = none
    ∧ deriveParent ObjectType.port [] = none :=
  ⟨parent_derivation_correct.2.1 ObjectType.link [("node.id", "5")]
      (by decide) (by decide),
   parent_derivation_correct.2.2.1 [("node.id", "x")] "x" (by decide) (by decide),
   parent_derivation_correct.2.2.2.1 [] (by decide)⟩

/-- C6: set_props always recomputes the derived fields from exactly the new props
map: after set_props(props), parent and name equal the derivation applied to the
new props, never a value carried over from before the update; in particular a
parent derived from the old props disappears when the new props lack the key. -/
theorem set_props_recomputes :
    (∀ (g : Global) (props : List (String × String)),
        (g.set_props props).parent_id = deriveParent g.object_type props
        ∧ (g.set_props props).name = deriveName g.object_type props
        ∧ (g.set_props props).props = props)
    ∧ ((Global.new 1 ObjectType.port (some [("node.id", "5")])).set_props
        []).parent_id = none
    ∧ (Global.new 1 ObjectType.port (some [("node.id", "5")])).parent_id = some 5 :=
  ⟨fun _ _ => ⟨rfl, rfl, rfl⟩, by decide, by decide⟩

theorem add_property_propsOf (e : MetadataEditor) (id : Nat) (name : String)
    (subject : Nat) (key : String) (type_ : Option String) (value : String) :
    (e.add_property id name subject key type_ value).propsOf id
      = alistInsert key { subject := subject, type_ := type_, value := value }
          (e.propsOf id) := by
  cases h : alistGet e.metadatas id <;>
    simp [MetadataEditor.add_property, MetadataEditor.propsOf, h, alistGet_insert_self]

theorem propsOf_keysUnique (e : MetadataEditor) (id : Nat) (h : e.WF) :
    alistKeysUnique (e.propsOf id) := by
  cases hg : alistGet e.metadatas id with
  | some m =>
    simpa [MetadataEditor.propsOf, hg] using h.2 (id, m) (alistGet_mem _ _ _ hg)
  | none => simp [MetadataEditor.propsOf, hg, alistKeysUnique]

/-- C3: Metadata upsert is last-write-wins: add_property stores the new record
under the key, replacing an existing record and leaving every other key of that
metadata id unchanged; applying it for id 1 and key k with value v1 and then
again with value v2 leaves exactly one record for k, holding v2. -/
theorem metadata_upsert_last_write_wins :
    (∀ (e : MetadataEditor) (id : Nat) (name : String) (subject : Nat) (key : String)
        (type_ : Option String) (value : String),
        alistGet ((e.add_property id name subject key type_ value).propsOf id) key
          = some { subject := subject, type_ := type_, value := value }
        ∧ ∀ k : String, k ≠ key →
            alistGet ((e.add_property id name subject key type_ value).propsOf id) k
              = alistGet (e.propsOf id) k)
    ∧ (∀ (e : MetadataEditor) (n₁ n₂ : String) (s₁ s₂ : Nat) (t₁ t₂ : Option String),
        e.WF →
        (((e.add_property 1 n₁ s₁ "k" t₁ "v1").add_property 1 n₂ s₂ "k" t₂ "v2").propsOf
              1).filter (fun p => decide (p.1 = "k"))
          = [("k", { subject := s₂, type_ := t₂, value := "v2" })]) := by
  constructor
  · intro e id name subject key type_ value
    rw [add_property_propsOf]
    exact ⟨alistGet_insert_self _ _ _, fun k hk => alistGet_insert_ne hk⟩
  · intro e n₁ n₂ s₁ s₂ t₁ t₂ hwf
    rw [add_property_propsOf, add_property_propsOf]
    exact filter_alistInsert_self
      (alistKeysUnique_insert _ _ _ (propsOf_keysUnique e 1 hwf))

/-- Witness for C3: from the empty metadata mirror, two upserts for id 1 and key
k leave exactly one record for k, holding the second value. -/
theorem metadata_upsert_last_write_wins_witness :
    (((MetadataEditor.new.add_property 1 "m" 0 "k" none "v1").add_property
          1 "m" 7 "k" (some "T") "v2").propsOf 1).filter (fun p => decide (p.1 = "k"))
      = [("k", { subject := 7, type_ := some "T", value := "v2" })] :=
  metadata_upsert_last_write_wins.2 MetadataEditor.new "m" "m" 0 7 none (some "T")
    ⟨List.Pairwise.nil, fun p hp => absurd hp (List.not_mem_nil p)⟩

theorem remove_property_propsOf (e : MetadataEditor) (id : Nat) (key : String) :
    (e.remove_property id key).propsOf id = alistRemove key (e.propsOf id) := by
  cases h : alistGet e.metadatas id <;>
    simp [MetadataEditor.remove_property, MetadataEditor.propsOf, h,
      alistGet_insert_self, alistRemove]

theorem clear_properties_propsOf (e : MetadataEditor) (id : Nat) :
    (e.clear_properties id).propsOf id = [] := by
  cases h : alistGet e.metadatas id <;>
    simp [MetadataEditor.clear_properties, MetadataEditor.propsOf, h, alistGet_insert_self]

/-- C5: Metadata deletion: remove_property removes exactly the named key of the
named metadata id, leaving every other record, the entry itself (name and staged
user records) and every other metadata id unchanged; clear_properties empties the
record map of that id while leaving the entry itself and every other id
unchanged. -/
theorem metadata_delete_and_clear :
    (∀ (e : MetadataEditor) (id : Nat) (key : String),
        (∀ id₁ : Nat, id₁ ≠ id →
            alistGet (e.remove_property id key).metadatas id₁ = alistGet e.metadatas id₁)
        ∧ (∀ m : Metadata, alistGet e.metadatas id = some m →
            alistGet (e.remove_property id key).metadatas id
              = some { m with properties := alistRemove key m.properties })
        ∧ (∀ k : String, k ≠ key →
            alistGet ((e.remove_property id key).propsOf id) k
              = alistGet (e.propsOf id) k)
        ∧ (e.WF → alistGet ((e.remove_property id key).propsOf id) key = none))
    ∧ (∀ (e : MetadataEditor) (id : Nat),
        (∀ id₁ : Nat, id₁ ≠ id →
            alistGet (e.clear_properties id).metadatas id₁ = alistGet e.metadatas id₁)
        ∧ (∀ m : Metadata, alistGet e.metadatas id = some m →
            alistGet (e.clear_properties id).metadatas id
              = some { m with properties := [] })
        ∧ (e.clear_properties id).propsOf id = []) := by
  constructor
  · intro e id key
    refine ⟨fun id₁ h₁ => ?_, fun m hm => ?_, fun k hk => ?_, fun hwf => ?_⟩
    · cases h : alistGet e.metadatas id with
      | some m => simp [MetadataEditor.remove_property, h, alistGet_insert_ne h₁]
      | none => simp [MetadataEditor.remove_property, h]
    · simp [MetadataEditor.remove_property, hm, alistGet_insert_self]
    · rw [remove_property_propsOf]
      exact alistGet_remove_ne hk
    · rw [remove_property_propsOf]
      exact alistGet_remove_self (propsOf_keysUnique e id hwf)
  · intro e id
    refine ⟨fun id₁ h₁ => ?_, fun m hm => ?_, clear_properties_propsOf e id⟩
    · cases h : alistGet e.metadatas id with
      | some m => simp [MetadataEditor.clear_properties, h, alistGet_insert_ne h₁]
      | none => simp [MetadataEditor.clear_properties, h]
    · simp [MetadataEditor.clear_properties, hm, alistGet_insert_self]

/-- Witness for C5 on a concrete mirror holding id 1 with records a and b and
id 2 with one record: removing key a of id 1 deletes exactly it, leaves b and
id 2 intact, and clearing id 1 empties its records. -/
theorem metadata_delete_and_clear_witness :
    alistGet (((MetadataEditor.mk
        [(1, Metadata.mk "m" [("a", Property.mk 0 none "x"), ("b", Property.mk 0 none "y")] []),
         (2, Metadata.mk "m2" [("c", Property.mk 0 none "z")] [])]).remove_property
            1 "a").propsOf 1) "a" = none
    ∧ alistGet (((MetadataEditor.mk
        [(1, Metadata.mk "m" [("a", Property.mk 0 none "x"), ("b", Property.mk 0 none "y")] []),
         (2, Metadata.mk "m2" [("c", Property.mk 0 none "z")] [])]).remove_property
            1 "a").propsOf 1) "b" = some (Property.mk 0 none "y")
    ∧ alistGet ((MetadataEditor.mk
        [(1, Metadata.mk "m" [("a", Property.mk 0 none "x"), ("b", Property.mk 0 none "y")] []),
         (2, Metadata.mk "m2" [("c", Property.mk 0 none "z")] [])]).remove_property
            1 "a").metadatas 2
        = some (Metadata.mk "m2" [("c", Property.mk 0 none "z")] [])
    ∧ alistGet ((MetadataEditor.mk
        [(1, Metadata.mk "m" [("a", Property.mk 0 none "x"), ("b", Property.mk 0 none "y")] []),
         (2, Metadata.mk "m2" [("c", Property.mk 0 none "z")] [])]).clear_properties
            1).metadatas 1
        = some (Metadata.mk "m" [] []) := by
  have hwf : MetadataEditor.WF (MetadataEditor.mk
      [(1, Metadata.mk "m" [("a", Property.mk 0 none "x"), ("b", Property.mk 0 none "y")] []),
       (2, Metadata.mk "m2" [("c", Property.mk 0 none "z")] [])]) := by
    constructor
    · simp [alistKeysUnique]
    · intro p hp
      simp only [List.mem_cons, List.not_mem_nil, or_false] at hp
      rcases hp with hp | hp <;> subst hp <;> simp [alistKeysUnique]
  refine ⟨?_, ?_, ?_, ?_⟩
  · exact (metadata_delete_and_clear.1 _ 1 "a").2.2.2 hwf
  · exact ((metadata_delete_and_clear.1 _ 1 "a").2.2.1 "b" (by decide)).trans (by decide)
  · exact ((metadata_delete_and_clear.1 _ 1 "a").1 2 (by decide)).trans (by decide)
  · exact ((metadata_delete_and_clear.2 (MetadataEditor.mk
        [(1, Metadata.mk "m" [("a", Property.mk 0 none "x"), ("b", Property.mk 0 none "y")] []),
         (2, Metadata.mk "m2" [("c", Property.mk 0 none "z")] [])]) 1).2.1
      (Metadata.mk "m" [("a", Property.mk 0 none "x"), ("b", Property.mk 0 none "y")] [])
      (by decide))

/-- C10: For an untracked metadata id, add_property implicitly creates the entry
with the supplied name, an empty staged-record list and exactly the one inserted
record, leaving every other id unchanged; conversely add_metadata on an already
tracked id leaves the mirror entirely unchanged. -/
theorem metadata_implicit_creation :
    (∀ (e : MetadataEditor) (id : Nat) (name : String) (subject : Nat) (key : String)
        (type_ : Option String) (value : String),
        alistGet e.metadatas id = none →
        alistGet (e.add_property id name subject key type_ value).metadatas id
          = some { name := name,
                   properties :=
                     [(key, { subject := subject, type_ := type_, value := value })],
                   user_properties := [] }
        ∧ ∀ id₁ : Nat, id₁ ≠ id →
            alistGet (e.add_property id name subject key type_ value).metadatas id₁
              = alistGet e.metadatas id₁)
    ∧ (∀ (e : MetadataEditor) (id : Nat) (name : String) (m : Metadata),
        alistGet e.metadatas id = some m → e.add_metadata id name = e) := by
  constructor
  · intro e id name subject key type_ value h
    constructor
    · simp [MetadataEditor.add_property, h, alistGet_insert_self, alistInsert]
    · intro id₁ h₁
      simp [MetadataEditor.add_property, h, alistGet_insert_ne h₁]
  · intro e id name m hm
    simp [MetadataEditor.add_metadata, hm]

/-- Witness for C10: an upsert for unseen id 1 on the empty mirror creates the
entry with the supplied name and one record, leaves id 2 untracked, and
add_metadata on a tracked id changes nothing. -/
theorem metadata_implicit_creation_witness :
    alistGet (MetadataEditor.new.add_property 1 "m" 5 "k" none "v").metadatas 1
      = some (Metadata.mk "m" [("k", Property.mk 5 none "v")] [])
    ∧ alistGet (MetadataEditor.new.add_property 1 "m" 5 "k" none "v").metadatas 2
      = alistGet MetadataEditor.new.metadatas 2
    ∧ (MetadataEditor.mk [(1, Metadata.mk "m" [("k", Property.mk 5 none "v")] [])]).add_metadata
          1 "other"
      = MetadataEditor.mk [(1, Metadata.mk "m" [("k", Property.mk 5 none "v")] [])] :=
  ⟨(metadata_implicit_creation.1 MetadataEditor.new 1 "m" 5 "k" none "v" rfl).1,
   (metadata_implicit_creation.1 MetadataEditor.new 1 "m" 5 "k" none "v" rfl).2 2 (by decide),
   metadata_implicit_creation.2
     (MetadataEditor.mk [(1, Metadata.mk "m" [("k", Property.mk 5 none "v")] [])]) 1 "other"
     (Metadata.mk "m" [("k", Property.mk 5 none "v")] []) (by decide)⟩

/-- C4: the Update permissions click on a client Global with a known permission
list and a staged user list sends ClientUpdatePermissions whose payload is the
concatenation known then staged, with no de-duplication even when ids collide,
immediately followed by ClientGetPermissions with index 0 and num u32::MAX. -/
theorem update_permissions_concat :
    (∀ (id : Nat) (known staged : List Permissions) (up : List (String × String)),
        ObjectData.updatePermissionsClick (ObjectData.clientData (some known) staged up) id
          = some (ObjectData.clientData (some known) [] up,
              [Request.CallObjectMethod id
                 (ObjectMethod.ClientUpdatePermissions (known ++ staged)),
               Request.CallObjectMethod id
                 (ObjectMethod.ClientGetPermissions 0 (2 ^ 32 - 1))])
        ∧ (known ++ staged).length = known.length + staged.length)
    ∧ ObjectData.updatePermissionsClick
        (ObjectData.clientData
          (some [Permissions.mk 3 1, Permissions.mk 3 2]) [Permissions.mk 3 4] []) 9
      = some (ObjectData.clientData (some [Permissions.mk 3 1, Permissions.mk 3 2]) [] [],
          [Request.CallObjectMethod 9 (ObjectMethod.ClientUpdatePermissions
             [Permissions.mk 3 1, Permissions.mk 3 2, Permissions.mk 3 4]),
           Request.CallObjectMethod 9 (ObjectMethod.ClientGetPermissions 0 u32Max)]) := by
  refine ⟨fun id known staged up => ⟨?_, by simp⟩, by decide⟩
  simp [ObjectData.updatePermissionsClick, u32Max]

/-- C7: drawing the object creator resets the selection to none whenever the
selected factory id is not (or no longer) tracked; after the reset logic a some
selection always refers to a tracked factory, and Create is enabled exactly when
a tracked factory is selected; removing the selected factory id makes the next
draw reset the selection. -/
theorem factory_selection_reset :
    (∀ c : ObjectCreator,
        (c.resolveSelection).1.factories = c.factories
        ∧ (∀ id : Nat, (c.resolveSelection).1.selected_factory = some id →
            ∃ f : Factory, alistGet c.factories id = some f)
        ∧ (∀ id : Nat, c.selected_factory = some id → alistGet c.factories id = none →
            (c.resolveSelection).1.selected_factory = none)
        ∧ (createEnabled (c.resolveSelection).2 = true ↔
            ∃ (id : Nat) (f : Factory),
              c.selected_factory = some id ∧ alistGet c.factories id = some f))
    ∧ (∀ (c : ObjectCreator) (id : Nat), alistKeysUnique c.factories →
        c.selected_factory = some id →
        ((c.remove_factory id).resolveSelection).1.selected_factory = none) := by
  constructor
  · intro c
    cases hsel : c.selected_factory with
    | none =>
      simp [ObjectCreator.resolveSelection, hsel, createEnabled]
    | some id =>
      cases hget : alistGet c.factories id with
      | some f =>
        refine ⟨by simp [ObjectCreator.resolveSelection, hsel, hget], ?_, ?_, ?_⟩
        · intro id₁ h₁
          simp [ObjectCreator.resolveSelection, hsel, hget] at h₁
          exact ⟨f, h₁ ▸ hget⟩
        · intro id₁ h₁ h₂
          cases h₁
          rw [hget] at h₂
          cases h₂
        · simp [ObjectCreator.resolveSelection, hsel, hget, createEnabled]
      | none =>
        refine ⟨by simp [ObjectCreator.resolveSelection, hsel, hget], ?_, ?_, ?_⟩
        · intro id₁ h₁
          simp [ObjectCreator.resolveSelection, hsel, hget] at h₁
        · intro id₁ h₁ h₂
          simp [ObjectCreator.resolveSelection, hsel, hget]
        · simp [ObjectCreator.resolveSelection, hsel, hget, createEnabled]
  · intro c id hu hsel
    have hget : alistGet (alistRemove id c.factories) id = none :=
      alistGet_remove_self hu
    simp [ObjectCreator.resolveSelection, ObjectCreator.remove_factory, hsel, hget]

/-- Witness for C7: with exactly one tracked factory (id 7) selected, removing it
makes the next draw reset the selection to none; a selection pointing at an
untracked id is likewise reset. -/
theorem factory_selection_reset_witness :
    ((((ObjectCreator.mk
          [(7, Factory.mk "link-factory" ObjectType.link
              (Global.new 7 ObjectType.factory none))]
          (some 7) []).remove_factory 7).resolveSelection).1.selected_factory = none)
    ∧ (((ObjectCreator.mk [] (some 7) []).resolveSelection).1.selected_factory = none) :=
  ⟨factory_selection_reset.2
      (ObjectCreator.mk
        [(7, Factory.mk "link-factory" ObjectType.link
            (Global.new 7 ObjectType.factory none))]
        (some 7) []) 7
      (by simp [alistKeysUnique]) rfl,
   ((factory_selection_reset.1 (ObjectCreator.mk [] (some 7) [])).2.2.1 7 rfl rfl)⟩

/-- C9: RemoteInfo equality compares only the discriminants: two values are equal
under PartialEq::eq exactly when they are built from the same variant, so
Regular(a) equals Regular(b) for every two endpoint names, even different ones. -/
theorem remote_info_eq_ignores_payloads :
    (∀ a b : RemoteInfo, RemoteInfo.eq a b = true ↔ RemoteInfo.sameVariant a b)
    ∧ (∀ a b : String,
        RemoteInfo.eq (RemoteInfo.Regular a) (RemoteInfo.Regular b) = true)
    ∧ RemoteInfo.eq (RemoteInfo.Regular "pipewire-0") (RemoteInfo.Regular "pipewire-1") = true
    ∧ ("pipewire-0" : String) ≠ "pipewire-1" := by
  refine ⟨fun a b => ?_, fun a b => rfl, by decide, by decide⟩
  cases a <;> cases b <;>
    simp [RemoteInfo.eq, RemoteInfo.discriminant, RemoteInfo.sameVariant]

/-- C8: Handle::drop sends exactly one Stop request (and no other request), as
its first step, then joins the bridge thread exactly once; a panic of the bridge
thread surfaces only as a log line in the trace; and the bridge loop, which
reacts to Stop, exits on every request stream containing Stop, so the join
completes. -/
theorem teardown_single_stop :
    (∀ (sendFails : Bool) (outcome : JoinOutcome),
        (handleDropSteps sendFails outcome).countP TeardownStep.isSendStop = 1
        ∧ (handleDropSteps sendFails outcome).countP TeardownStep.isSend = 1
        ∧ (handleDropSteps sendFails outcome).head?
            = some (TeardownStep.sendRequest Request.Stop)
        ∧ (handleDropSteps sendFails outcome).countP TeardownStep.isJoin = 1
        ∧ (∀ m : String, outcome = JoinOutcome.panicked m →
            TeardownStep.logError ("The PipeWire thread has paniced: " ++ m)
              ∈ handleDropSteps sendFails outcome))
    ∧ (∀ rs : List Request, Request.Stop ∈ rs → bridgeLoopExits rs = true) := by
  constructor
  · intro sendFails outcome
    cases sendFails <;> cases outcome <;>
      simp [handleDropSteps, TeardownStep.isSendStop, TeardownStep.isSend,
        TeardownStep.isJoin, List.countP_cons, List.countP_nil]
  · intro rs
    induction rs with
    | nil => exact fun h => absurd h (List.not_mem_nil _)
    | cons r rest ih =>
      intro h
      rcases List.mem_cons.mp h with h1 | h1
      · subst h1
        rfl
      · cases r
        case Stop => rfl
        all_goals exact ih h1

/-- Witness for C8: a caught panic appears as a log line in the concrete drop
trace, and a request stream holding a Stop makes the bridge loop exit. -/
theorem teardown_single_stop_witness :
    TeardownStep.logError ("The PipeWire thread has paniced: " ++ "boom")
      ∈ handleDropSteps false (JoinOutcome.panicked "boom")
    ∧ bridgeLoopExits [Request.GetContextProperties, Request.Stop] = true :=
  ⟨(teardown_single_stop.1 false (JoinOutcome.panicked "boom")).2.2.2.2 "boom" rfl,
   teardown_single_stop.2 [Request.GetContextProperties, Request.Stop] (by decide)⟩

/-- Witness for C9: two Camera values compare equal, and two Regular values with
different endpoint names compare equal. -/
theorem remote_info_eq_ignores_payloads_witness :
    RemoteInfo.eq RemoteInfo.Camera RemoteInfo.Camera = true
    ∧ RemoteInfo.eq (RemoteInfo.Regular "a") (RemoteInfo.Regular "b") = true :=
  ⟨(remote_info_eq_ignores_payloads.1 RemoteInfo.Camera RemoteInfo.Camera).mpr trivial,
   remote_info_eq_ignores_payloads.2.1 "a" "b"⟩
